import Mathlib

/-!
Verification of the Workspace Edit & File Operation Engine of coc.nvim
(`src/core/files.ts`).

The engine's implementation file is not part of the sources available here;
only its test suite (`src/__tests__/core/files.test.ts`) is.  The engine is
therefore modelled from the natural-language specification (spec.md §3,
§4.1–§4.3, §7), with the behaviours that the in-repository tests pin down
taken as authoritative where the spec is ambiguous or self-contradictory.

The model is a shallow embedding: the mutable world (filesystem, Document
Store, editor buffers, cursor) is a single explicit state record, the
operations are pure functions from state to `Except`-wrapped state, and
Recovery Actions are reified as data (`Recover`) whose execution is a pure
state transformer.
-/

namespace Coc

/-! ## Association-list primitives

The Document Store and the filesystem are modelled as association lists
keyed by decidable-equality keys.  `alookup` returns the first binding,
`aset` replaces every binding of a key, `aremove` drops them. -/

section Assoc

variable {α : Type} {β : Type} [DecidableEq α]

def alookup (k : α) : List (α × β) → Option β
  | [] => none
  | e :: rest => if e.1 = k then some e.2 else alookup k rest

def aremove (k : α) : List (α × β) → List (α × β)
  | [] => []
  | e :: rest => if e.1 = k then aremove k rest else e :: aremove k rest

def aset (k : α) (v : β) (l : List (α × β)) : List (α × β) :=
  (k, v) :: aremove k l

end Assoc

/-! ## Data model (spec.md §3)

Paths are segment lists, URIs a scheme plus a path, documents carry a
buffer number (editor identity), a version counter and their content as a
list of lines.  `CoreState` bundles the three independently-failing
resources of the engine: on-disk filesystem state (`files`, `dirs`),
the Document Store (`docs`) and editor state (`nextBufnr`, `focused`,
`cursor`). -/

abbrev Path : Type := List String

/-- A URI: a scheme (`"file"` for filesystem URIs) and a path. -/
structure Uri where
  scheme : String
  path : Path
  deriving DecidableEq, Repr

/-- The `file://` URI of a path. -/
def Uri.file (p : Path) : Uri := ⟨"file", p⟩

/-- A line/character position (zero-based), as in LSP. -/
structure Pos where
  line : Nat
  character : Nat
  deriving DecidableEq, Repr

/-- A half-open text range `[start, end_)` in line/character coordinates. -/
structure TextRange where
  start : Pos
  end_ : Pos
  deriving DecidableEq, Repr

/-- A text edit: replace `range` with `newText` (may contain newlines). -/
structure TextEdit where
  range : TextRange
  newText : String
  deriving DecidableEq, Repr

/-- An open document: editor buffer identity, version counter and content
as lines.  The version increases monotonically on every mutation. -/
structure Doc where
  bufnr : Nat
  version : Nat
  lines : List String
  deriving DecidableEq, Repr

/-- `FileOperationOptions` of spec.md §3. -/
structure FileOpts where
  overwrite : Bool := false
  ignoreIfExists : Bool := false
  ignoreIfNotExists : Bool := false
  recursive : Bool := false
  deriving DecidableEq, Repr

/-- The engine's world state: filesystem (`files` maps file paths to byte
content, `dirs` is the set of existing directories), the Document Store
(`docs`), the next free buffer number, the focused document and the
cursor. -/
structure CoreState where
  files : List (Path × String)
  dirs : List Path
  docs : List (Uri × Doc)
  nextBufnr : Nat
  focused : Option Uri
  cursor : Pos
  deriving DecidableEq, Repr

/-- Errors of the File Operation Executor (spec.md §7). -/
inductive FileOpError where
  | alreadyExists (p : Path)
  | notFound (p : Path)
  | conflict (u : Uri)
  | ioError (msg : String)
  deriving DecidableEq, Repr

/-- Modelled from the spec: a Recovery Action (spec.md §2, "a zero-argument
reversible operation capturing how to undo one primitive effect").  The
closures of `RecoverFunc` in `src/core/files.ts` are reified as captured
restoring writes: each action puts one filesystem or Document Store key
back to the value it had before the effect it compensates. -/
inductive Recover where
  | putFile (p : Path) (c : Option String)
  | putDir (p : Path) (present : Bool)
  | putDoc (u : Uri) (d : Option Doc)
  deriving DecidableEq, Repr

/-! ## Observations and observational equivalence -/

/-- Content of the file at `p`, if present. -/
def obsFile (s : CoreState) (p : Path) : Option String := alookup p s.files

/-- Whether directory `p` exists. -/
def obsDir (s : CoreState) (p : Path) : Prop := p ∈ s.dirs

instance (s : CoreState) (p : Path) : Decidable (obsDir s p) :=
  inferInstanceAs (Decidable (p ∈ s.dirs))

/-- The observable part of the document at `u`: its version and content. -/
def obsDoc (s : CoreState) (u : Uri) : Option (Nat × List String) :=
  (alookup u s.docs).map fun d => (d.version, d.lines)

/-- Observational equality of filesystem and Document Store state: same
files present with the same content, same directories, same document
contents and versions (spec.md §8, "observably identical"). -/
structure EquivSt (s t : CoreState) : Prop where
  file : ∀ p, obsFile s p = obsFile t p
  dir : ∀ p, obsDir s p ↔ obsDir t p
  doc : ∀ u, obsDoc s u = obsDoc t u

/-- Insert a directory if absent. -/
def insertDir (p : Path) (l : List Path) : List Path :=
  if p ∈ l then l else p :: l

/-- Remove a directory. -/
def removeDir (p : Path) (l : List Path) : List Path :=
  l.filter fun q => decide (¬ q = p)

/-- Run one Recovery Action: a constant restoring write. -/
def Recover.run : Recover → CoreState → CoreState
  | .putFile p none, s => { s with files := aremove p s.files }
  | .putFile p (some c), s => { s with files := aset p c s.files }
  | .putDir p b, s =>
      { s with dirs := if b then insertDir p s.dirs else removeDir p s.dirs }
  | .putDoc u none, s => { s with docs := aremove u s.docs }
  | .putDoc u (some d), s => { s with docs := aset u d s.docs }

/-- Run a list of Recovery Actions front to back. -/
def runAll (l : List Recover) (s : CoreState) : CoreState :=
  l.foldl (fun s r => r.run s) s

/-- Roll back: execute the accumulated Recovery Actions in reverse order
(spec.md §4.1 step 5). -/
def rollback (l : List Recover) (s : CoreState) : CoreState :=
  runAll l.reverse s

/-- Restoring writes for a list of file paths, capturing current content. -/
def snapFiles (s : CoreState) (ks : List Path) : List Recover :=
  ks.map fun k => .putFile k (obsFile s k)

/-- Restoring writes for a list of directories, capturing current presence. -/
def snapDirs (s : CoreState) (ks : List Path) : List Recover :=
  ks.map fun k => .putDir k (decide (obsDir s k))

/-- Restoring writes for a list of document URIs, capturing current docs. -/
def snapDocs (s : CoreState) (us : List Uri) : List Recover :=
  us.map fun u => .putDoc u (alookup u s.docs)

/-! Rolling back a snapshot forces every snapshotted key back to its value
in the snapshot state `s`, no matter what happened since; keys outside the
snapshot keep the value of the state being rolled back. -/

/-- Split a character list into lines at newline characters; the result is
always nonempty (splitting the empty text gives one empty line). -/
def splitLinesAux : List Char → List String
  | [] => [""]
  | c :: rest =>
    match splitLinesAux rest with
    | [] => [""]
    | x :: xs => if c = '\n' then "" :: x :: xs else String.mk (c :: x.data) :: xs

/-- Split replacement text into lines (the `split("\n")` of the source). -/
def splitLines (c : String) : List String := splitLinesAux c.data

/-- Join lines back into file content. -/
def joinLines (l : List String) : String := String.intercalate "\n" l

/-- Append `post` to the last element of a nonempty list. -/
def glueLast : List String → String → List String
  | [], post => [post]
  | [x], post => [x ++ post]
  | x :: xs, post => x :: glueLast xs post

/-- Apply one text edit to content given as lines. -/
def applyTextEdit (e : TextEdit) (lines : List String) : List String :=
  let pre := ((lines.getD e.range.start.line "").take e.range.start.character)
  let post := ((lines.getD e.range.end_.line "").drop e.range.end_.character)
  let mid := splitLines e.newText
  let newSeg :=
    match mid with
    | [] => [pre ++ post]
    | [x] => [pre ++ x ++ post]
    | x :: xs => (pre ++ x) :: glueLast xs post
  lines.take e.range.start.line ++ newSeg ++ lines.drop (e.range.end_.line + 1)

/-- Apply a batch of edits (given against the original content, in
ascending position order) as one combined patch: last edit first, so
earlier offsets are unaffected. -/
def applyTextEdits (edits : List TextEdit) (lines : List String) : List String :=
  edits.foldr applyTextEdit lines

/-! ## Cursor adjustment (spec.md §4.1 step 6)

Modelled from the spec: the cursor-delta computation of
`getChangedFromEdits` (`src/util/position.ts`, not among the sources)
shifts the cursor by the net line/character delta of every edit whose
range ends at or before the cursor's original position — the behaviour
the test "should adjust cursor position after applyEdits" pins down is
that an insertion exactly at the cursor does move it. -/

/-- Position order, `a ≤ b` lexicographically on (line, character). -/
def posLe (a b : Pos) : Bool :=
  decide (a.line < b.line) || (decide (a.line = b.line) && decide (a.character ≤ b.character))

/-- Net line delta of an edit. -/
def lineDelta (e : TextEdit) : Int :=
  ((splitLines e.newText).length : Int) - 1 -
    ((e.range.end_.line : Int) - (e.range.start.line : Int))

/-- Net character delta of an edit on the cursor's line. -/
def charDelta (cursorLine : Nat) (e : TextEdit) : Int :=
  if e.range.end_.line = cursorLine then
    let ls := splitLines e.newText
    let single := ls.length = 1 ∧ e.range.start.line = e.range.end_.line
    let removed : Int :=
      if single then (e.range.end_.character : Int) - (e.range.start.character : Int)
      else (e.range.end_.character : Int)
    let added : Int :=
      if single then (e.newText.length : Int) else ((ls.getLastD "").length : Int)
    added - removed
  else 0

/-- Line/character delta an edit contributes to the cursor: zero unless
the edit's range ends at or before the cursor. -/
def changedPosition (cursor : Pos) (e : TextEdit) : Int × Int :=
  if posLe e.range.end_ cursor then (lineDelta e, charDelta cursor.line e) else (0, 0)

/-- Sum of the deltas of a batch of edits. -/
def getChangedFromEdits (cursor : Pos) (edits : List TextEdit) : Int × Int :=
  edits.foldl (fun acc e =>
    let d := changedPosition cursor e
    (acc.1 + d.1, acc.2 + d.2)) (0, 0)

/-- Shift a position by an integer delta (clamped at zero). -/
def shiftPos (p : Pos) (d : Int × Int) : Pos :=
  ⟨((p.line : Int) + d.1).toNat, ((p.character : Int) + d.2).toNat⟩

/-! ## The Document Store and the File Operation Executor -/

/-- Modelled from the spec: resolving a target document, "loading from
disk into the Document Store if not already open" (spec.md §4.1 step 2).
A document loaded for a path with no on-disk file starts empty; freshly
loaded documents start at version 0, and each buffer gets a fresh
buffer number. -/
def loadLines (u : Uri) (s : CoreState) : List String :=
  match alookup u.path s.files with
  | some c => splitLines c
  | none => [""]

def openDoc (u : Uri) (s : CoreState) : CoreState :=
  match alookup u s.docs with
  | some _ => s
  | none =>
    { s with docs := aset u ⟨s.nextBufnr, 0, loadLines u s⟩ s.docs,
             nextBufnr := s.nextBufnr + 1 }

/-- Whether something (file or directory) exists at `p`. -/
def existsAt (s : CoreState) (p : Path) : Bool :=
  (alookup p s.files).isSome || decide (p ∈ s.dirs)

/-- The proper ancestors of a path, shallowest first (excluding the empty
root, which always exists). -/
def ancestors (p : Path) : List Path :=
  ((List.range p.length).drop 1).map fun n => p.take n

/-- The ancestor directories of `p` that do not yet exist. -/
def newDirsOf (s : CoreState) (p : Path) : List Path :=
  (ancestors p).filter fun d => decide (d ∉ s.dirs)

/-- The file paths at or under directory `p` (prefix order on segments). -/
def filesUnder (s : CoreState) (p : Path) : List Path :=
  (s.files.map Prod.fst).filter fun k => p.isPrefixOf k

/-- The directories at or under directory `p`. -/
def dirsUnder (s : CoreState) (p : Path) : List Path :=
  s.dirs.filter fun d => p.isPrefixOf d

/-- The open filesystem documents whose path is at or under `p`. -/
def docsUnder (s : CoreState) (p : Path) : List Uri :=
  (s.docs.map Prod.fst).filter fun u => u.scheme == "file" && p.isPrefixOf u.path

/-- Modelled from the spec: `createFile` (spec.md §4.2).  Fails if the
target exists and neither `overwrite` nor `ignoreIfExists` is set; with
`ignoreIfExists` and an existing target it is a no-op appending no
Recovery Action.  Otherwise it creates the missing ancestor directories
(remembering which ones it created), writes the file empty, and loads an
editor buffer for it if none is open.  Recovery Actions restore every
touched key — for a pre-existing overwritten target that means restoring
its previous content, as required by the atomic-rollback property of
spec.md §8. -/
def createFile (p : Path) (o : FileOpts) (s : CoreState) :
    Except FileOpError (CoreState × List Recover) :=
  let ex := existsAt s p
  if ex ∧ ¬ o.overwrite ∧ ¬ o.ignoreIfExists then .error (.alreadyExists p)
  else if ex ∧ o.ignoreIfExists then .ok (s, [])
  else
    let u := Uri.file p
    let docNew := (alookup u s.docs).isNone
    let recs := snapDirs s (newDirsOf s p) ++ snapFiles s [p] ++
      (if docNew then snapDocs s [u] else [])
    let s₁ := { s with dirs := newDirsOf s p ++ s.dirs, files := aset p "" s.files }
    .ok (if docNew then openDoc u s₁ else s₁, recs)

/-- Whether any file or directory lies strictly under directory `p`. -/
def hasStrictSub (s : CoreState) (p : Path) : Bool :=
  (s.files.map Prod.fst).any (fun k => p.isPrefixOf k && !(k == p)) ||
    s.dirs.any (fun d => p.isPrefixOf d && !(d == p))

/-- Modelled from the spec: `deleteFile` (spec.md §4.2).  Fails if the
target does not exist and `ignoreIfNotExists` is not set (no-op otherwise).
A directory with content requires `recursive`; the snapshot captures the
full subtree (files with content, directories, open documents under the
path) so rollback recreates it byte-for-byte.  Deleting a file closes its
open document, remembered for restoration. -/
def deleteFile (p : Path) (o : FileOpts) (s : CoreState) :
    Except FileOpError (CoreState × List Recover) :=
  let isFile := (alookup p s.files).isSome
  let isDir := decide (p ∈ s.dirs)
  if ¬ isFile ∧ ¬ isDir then
    if o.ignoreIfNotExists then .ok (s, []) else .error (.notFound p)
  else if isDir then
    if o.recursive then
      let recs := snapFiles s (filesUnder s p) ++ snapDirs s (dirsUnder s p) ++
        snapDocs s (docsUnder s p)
      let s' := { s with
        files := s.files.filter fun e => !p.isPrefixOf e.1,
        dirs := s.dirs.filter fun d => !p.isPrefixOf d,
        docs := s.docs.filter fun e => !(e.1.scheme == "file" && p.isPrefixOf e.1.path) }
      .ok (s', recs)
    else if hasStrictSub s p then .error (.ioError "directory not empty")
    else
      .ok ({ s with dirs := s.dirs.filter fun d => !(d == p) }, snapDirs s [p])
  else
    let u := Uri.file p
    let docOpen := (alookup u s.docs).isSome
    let recs := snapFiles s [p] ++ (if docOpen then snapDocs s [u] else [])
    .ok ({ s with files := aremove p s.files, docs := aremove u s.docs }, recs)

/-- Re-root a path from under `op` to under `np`. -/
def remapPath (op np k : Path) : Path := np ++ k.drop op.length

/-- Modelled from the spec: `renameFile` (spec.md §4.2, §7).  Fails if the
destination exists without `overwrite`.  For a directory source the whole
subtree (files, directories and open documents under the source prefix)
is re-rooted at the destination.  For a file source the file moves and an
open document for it is re-pointed at the destination, keeping its buffer
identity and in-memory content; if only a document is open and no on-disk
file exists the rename still proceeds by re-pointing the document.  When
the source neither exists on disk nor has an open document the rename
fails with NotFound — the behaviour pinned by the test "should throw when
oldPath not exists". -/
def renameFile (op np : Path) (o : FileOpts) (s : CoreState) :
    Except FileOpError (CoreState × List Recover) :=
  if existsAt s np ∧ ¬ o.overwrite then .error (.alreadyExists np)
  else if decide (op ∈ s.dirs) then
    if existsAt s np then .error (.ioError "destination exists")
    else if op.isPrefixOf np then .error (.ioError "cannot move into itself")
    else
      let recs := snapFiles s (filesUnder s op ++ (filesUnder s op).map (remapPath op np) ++
          filesUnder s np) ++
        snapDirs s (dirsUnder s op ++ (dirsUnder s op).map (remapPath op np) ++
          dirsUnder s np) ++
        snapDocs s (docsUnder s op ++ (docsUnder s op).map
            (fun u => ⟨u.scheme, remapPath op np u.path⟩) ++
          docsUnder s np)
      let s' := { s with
        files := (s.files.filter fun e => !op.isPrefixOf e.1 && !np.isPrefixOf e.1) ++
          ((s.files.filter fun e => op.isPrefixOf e.1).map fun e =>
            (remapPath op np e.1, e.2)),
        dirs := (s.dirs.filter fun d => !op.isPrefixOf d && !np.isPrefixOf d) ++
          ((s.dirs.filter fun d => op.isPrefixOf d).map (remapPath op np)),
        docs := (s.docs.filter fun e =>
            !(e.1.scheme == "file" && (op.isPrefixOf e.1.path || np.isPrefixOf e.1.path))) ++
          ((s.docs.filter fun e => e.1.scheme == "file" && op.isPrefixOf e.1.path).map
            fun e => (⟨e.1.scheme, remapPath op np e.1.path⟩, e.2)) }
      .ok (s', recs)
  else
    let oldUri := Uri.file op
    let newUri := Uri.file np
    let fc := alookup op s.files
    match alookup oldUri s.docs with
    | some d =>
      let recs := snapFiles s [op, np] ++ snapDocs s [oldUri, newUri]
      let s' := { s with
        files := aset np (joinLines d.lines) (aremove op s.files),
        docs := aset newUri d (aremove oldUri (aremove newUri s.docs)),
        focused := if s.focused = some oldUri then some newUri else s.focused }
      .ok (s', recs)
    | none =>
      match fc with
      | none => .error (.notFound op)
      | some c =>
        let recs := snapFiles s [op, np]
        .ok ({ s with files := aset np c (aremove op s.files) }, recs)

/-! ## The Workspace Edit Applier (spec.md §4.1) -/

/-- A Change of a WorkspaceEdit: a closed tagged union with an explicit
discriminant (spec.md §3 and §9). -/
inductive Change where
  | docEdit (uri : Uri) (expectedVersion : Option Nat) (edits : List TextEdit)
  | create (uri : Uri) (opts : FileOpts)
  | delete (uri : Uri) (opts : FileOpts)
  | rename (oldUri newUri : Uri) (opts : FileOpts)
  deriving DecidableEq, Repr

/-- A WorkspaceEdit: the `changes` map (unconditional edits per URI) and
the ordered `documentChanges` sequence. -/
structure WorkspaceEdit where
  changes : List (Uri × List TextEdit) := []
  documentChanges : List Change := []
  deriving DecidableEq, Repr

/-- The single ordered plan of a WorkspaceEdit (spec.md §4.1 step 1):
entries of the `changes` map become unconditional document edits, followed
by the ordered `documentChanges`. -/
def planOf (we : WorkspaceEdit) : List Change :=
  (we.changes.map fun e => Change.docEdit e.1 none e.2) ++ we.documentChanges

/-- Whether a Change is a file operation targeting a non-filesystem URI
(spec.md §7, UnsupportedSchemeError). -/
def badScheme : Change → Bool
  | .docEdit _ _ _ => false
  | .create u _ => !(u.scheme == "file")
  | .delete u _ => !(u.scheme == "file")
  | .rename u v _ => !(u.scheme == "file") || !(v.scheme == "file")

/-- Modelled from the spec: one step of `applyEdit` (spec.md §4.1 steps
2–4).  A document edit resolves its target (loading it if needed, with a
Recovery Action unloading a freshly loaded document), checks the expected
version — `none` means apply unconditionally — and applies the combined
patch, bumping the version; file operations delegate to the Executor.  A
failing step has no effect on the state. -/
def applyStep (s : CoreState) (c : Change) :
    Except FileOpError (CoreState × List Recover) :=
  match c with
  | .docEdit u ver edits =>
    let wasOpen := (alookup u s.docs).isSome
    let loadRecs := if wasOpen then [] else snapDocs s [u]
    let s₁ := openDoc u s
    match alookup u s₁.docs with
    | none => .error (.ioError "load failed")
    | some d =>
      match ver with
      | some v =>
        if v = d.version then
          .ok ({ s₁ with docs := aset u ⟨d.bufnr, d.version + 1, applyTextEdits edits d.lines⟩ s₁.docs },
            loadRecs ++ snapDocs s₁ [u])
        else .error (.conflict u)
      | none =>
        .ok ({ s₁ with docs := aset u ⟨d.bufnr, d.version + 1, applyTextEdits edits d.lines⟩ s₁.docs },
          loadRecs ++ snapDocs s₁ [u])
  | .create u o => createFile u.path o s
  | .delete u o => deleteFile u.path o s
  | .rename u v o => renameFile u.path v.path o s

/-- Modelled from the spec: the apply loop.  Steps run left to right,
accumulating Recovery Actions; the first failure stops the loop and
yields the state reached and the accumulated actions for rollback. -/
def go (s : CoreState) : List Change → List Recover →
    Except (CoreState × List Recover) (CoreState × List Recover)
  | [], acc => .ok (s, acc)
  | c :: rest, acc =>
    match applyStep s c with
    | .error _ => .error (s, acc)
    | .ok (s', recs) => go s' rest (acc ++ recs)

/-- The URIs edited by document edits of a plan. -/
def editedUris (plan : List Change) : List Uri :=
  plan.filterMap fun c =>
    match c with
    | .docEdit u _ _ => some u
    | _ => none

/-- All edits a plan applies to the document `fu`. -/
def editsFor (fu : Uri) (plan : List Change) : List TextEdit :=
  (plan.map fun c =>
    match c with
    | .docEdit u _ es => if u = fu then es else []
    | _ => []).flatten

/-- Modelled from the spec: cursor adjustment after a fully successful
apply (spec.md §4.1 step 6): if the focused document is among the edited
documents, shift the cursor by the summed deltas of its edits, computed
against the original cursor position. -/
def adjustCursor (we : WorkspaceEdit) (s₀ s : CoreState) : CoreState :=
  match s₀.focused with
  | some fu =>
    if fu ∈ editedUris (planOf we) then
      { s with cursor := shiftPos s₀.cursor (getChangedFromEdits s₀.cursor (editsFor fu (planOf we))) }
    else s
  | none => s

/-- Modelled from the spec: `applyEdit` (spec.md §4.1).  File operations
with a non-filesystem URI are rejected before any mutation; otherwise the
plan runs step by step, and on the first failure everything accumulated is
rolled back in reverse order and `false` is returned.  On success the
cursor is adjusted and `true` returned. -/
def applyEdit (we : WorkspaceEdit) (s : CoreState) : Bool × CoreState :=
  if (planOf we).any badScheme then (false, s)
  else
    match go s (planOf we) [] with
    | .ok (s', _) => (true, adjustCursor we s s')
    | .error (t, recs) => (false, rollback recs t)

/-! ## File Search (spec.md §4.3)

Modelled from the spec: `findFiles` walks the files under the given roots
in deterministic order, filtering by an include and an exclude predicate
(the glob matchers, abstracted as boolean functions on paths).  The
cancellation token is polled between directory entries and is modelled by
the poll count at which it becomes signalled; `maxResults` stops the walk
as soon as the bound is reached. -/

/-- Whether the token is signalled at poll number `polls`. -/
def isCancelled : Option Nat → Nat → Bool
  | none, _ => false
  | some k, polls => decide (k ≤ polls)

/-- Whether the result bound has been reached. -/
def atMax : Option Nat → Nat → Bool
  | none, _ => false
  | some m, found => decide (m ≤ found)

/-- The walk: processes candidate entries in order, polling the token and
checking the bound before each entry, accumulating matches. -/
def findWalk (incl excl : Path → Bool) (maxR cancelAt : Option Nat) :
    List Path → Nat → Nat → List Path
  | [], _, _ => []
  | e :: rest, polls, found =>
    if isCancelled cancelAt polls then []
    else if atMax maxR found then []
    else if incl e && !excl e then
      e :: findWalk incl excl maxR cancelAt rest (polls + 1) (found + 1)
    else findWalk incl excl maxR cancelAt rest (polls + 1) found

/-- The candidate entries of a search: the files under each root, roots
walked in order. -/
def candidates (s : CoreState) (roots : List Path) : List Path :=
  (roots.map fun r => (s.files.map Prod.fst).filter fun k => r.isPrefixOf k).flatten

/-- Modelled from the spec: `findFiles` (spec.md §4.3). -/
def findFiles (s : CoreState) (roots : List Path) (incl excl : Path → Bool)
    (maxR cancelAt : Option Nat) : List Path :=
  findWalk incl excl maxR cancelAt (candidates s roots) 0 0

/-- Whether an `Except` result is a success. -/
def isOkE {ε α : Type} : Except ε α → Bool
  | .ok _ => true
  | .error _ => false

/-! ## Concrete states used to exercise the model -/

/-- A sample open document. -/
def sampleDoc : Doc := ⟨3, 5, ["hello", "world"]⟩

/-- A sample world: a directory `tmp` with two files and a subdirectory,
one open document which is focused. -/
def sampleState : CoreState :=
  { files := [(["tmp", "a.txt"], "hello\nworld"), (["tmp", "sub", "b.txt"], "bb")],
    dirs := [["tmp"], ["tmp", "sub"]],
    docs := [(Uri.file ["tmp", "a.txt"], sampleDoc)],
    nextBufnr := 4,
    focused := some (Uri.file ["tmp", "a.txt"]),
    cursor := ⟨0, 0⟩ }

/-- A WorkspaceEdit whose document edit carries a stale expected version. -/
def mismatchWe : WorkspaceEdit :=
  ⟨[], [.docEdit (Uri.file ["tmp", "a.txt"]) (some 6) [⟨⟨⟨0, 0⟩, ⟨0, 0⟩⟩, "zzz"⟩]]⟩

/-- A state with an empty focused document and the cursor at the origin. -/
def cursorState : CoreState :=
  { files := [], dirs := [], docs := [(Uri.file ["x"], ⟨1, 0, [""]⟩)],
    nextBufnr := 2, focused := some (Uri.file ["x"]), cursor := ⟨0, 0⟩ }

/-- The edit of the cursor scenario: insert a line exactly at the cursor. -/
def insertAtCursorEdit : TextEdit := ⟨⟨⟨0, 0⟩, ⟨0, 0⟩⟩, "foo\n"⟩

/-- A WorkspaceEdit inserting a line at the cursor of `cursorState`. -/
def cursorWe : WorkspaceEdit := ⟨[], [.docEdit (Uri.file ["x"]) none [insertAtCursorEdit]]⟩

/-- A state with a document open for a path that has no on-disk file. -/
def ghostState : CoreState :=
  { files := [], dirs := [], docs := [(Uri.file ["g"], ⟨7, 2, ["x"]⟩)],
    nextBufnr := 8, focused := none, cursor := ⟨0, 0⟩ }

/-- A state with no files, directories or documents at all. -/
def emptyState : CoreState :=
  { files := [], dirs := [], docs := [], nextBufnr := 1, focused := none, cursor := ⟨0, 0⟩ }

/-- A WorkspaceEdit creating a file through a terminal-scheme URI. -/
def termWe : WorkspaceEdit := ⟨[], [.create ⟨"term", ["."]⟩ {}]⟩

/-! ## Properties of the embedding -/

section AssocLemmas

variable {α : Type} {β : Type} [DecidableEq α]

theorem alookup_aremove (k q : α) (l : List (α × β)) :
    alookup q (aremove k l) = if q = k then none else alookup q l := by
  induction l with
  | nil => simp [alookup, aremove]
  | cons e rest ih =>
    by_cases h2 : q = k
    · subst h2
      by_cases h1 : e.1 = q
      · simp [aremove, h1, ih]
      · simp [aremove, alookup, h1, ih]
    · by_cases h1 : e.1 = k
      · have h3 : ¬ e.1 = q := by
          intro hh; exact h2 ((hh.symm.trans h1))
        have h4 : ¬ k = q := fun hh => h2 hh.symm
        simp [aremove, alookup, h1, h2, h3, h4, ih]
      · simp [aremove, alookup, h1, h2, ih]

theorem alookup_aset (k q : α) (v : β) (l : List (α × β)) :
    alookup q (aset k v l) = if q = k then some v else alookup q l := by
  by_cases h : q = k
  · subst h; simp [aset, alookup]
  · have h2 : ¬ k = q := fun hh => h hh.symm
    simp [aset, alookup, alookup_aremove, h, h2]

theorem alookup_append (q : α) (l₁ l₂ : List (α × β)) :
    alookup q (l₁ ++ l₂) =
      match alookup q l₁ with
      | some v => some v
      | none => alookup q l₂ := by
  induction l₁ with
  | nil => simp [alookup]
  | cons e rest ih =>
    by_cases h : e.1 = q <;> simp [alookup, h, ih]

theorem alookup_filter_key (pred : α → Bool) (q : α) (l : List (α × β)) :
    alookup q (l.filter (fun e => pred e.1)) =
      if pred q then alookup q l else none := by
  induction l with
  | nil => simp [alookup]
  | cons e rest ih =>
    rcases hp : pred e.1 with _ | _
    · by_cases h : e.1 = q
      · subst h
        simp [List.filter, hp, ih, alookup]
      · simp [List.filter, hp, ih, alookup, h]
    · by_cases h : e.1 = q
      · subst h
        simp [List.filter, hp, ih, alookup]
      · simp [List.filter, hp, ih, alookup, h]

theorem alookup_eq_none_of_not_mem_keys (q : α) (l : List (α × β))
    (h : q ∉ l.map Prod.fst) : alookup q l = none := by
  induction l with
  | nil => simp [alookup]
  | cons e rest ih =>
    simp only [List.map_cons, List.mem_cons] at h
    push_neg at h
    have h1 : ¬ e.1 = q := fun hh => h.1 hh.symm
    simp [alookup, h1, ih h.2]

theorem alookup_map_inj (f : α → α) (hf : Function.Injective f)
    (q : α) (l : List (α × β)) :
    alookup (f q) (l.map (fun e => (f e.1, e.2))) = alookup q l := by
  induction l with
  | nil => simp [alookup]
  | cons e rest ih =>
    by_cases h : e.1 = q
    · simp [alookup, h, ih]
    · have : ¬ f e.1 = f q := fun hh => h (hf hh)
      simp [alookup, h, this, ih]

theorem map_fst_filter_comm (pred : α → Bool) (l : List (α × β)) :
    (l.map Prod.fst).filter pred = (l.filter fun e => pred e.1).map Prod.fst := by
  induction l with
  | nil => simp
  | cons e rest ih =>
    rcases hp : pred e.1 with _ | _ <;> simp [List.filter, hp, ih]

theorem alookup_image_none (f : α → α) (pred : α → Bool) (l : List (α × β)) (q : α)
    (hq : q ∉ ((l.map Prod.fst).filter pred).map f) :
    alookup q ((l.filter fun e => pred e.1).map fun e => (f e.1, e.2)) = none := by
  apply alookup_eq_none_of_not_mem_keys
  rw [map_fst_filter_comm] at hq
  intro hmem
  apply hq
  simpa [List.map_map, Function.comp] using hmem

end AssocLemmas

theorem EquivSt.refl (s : CoreState) : EquivSt s s :=
  ⟨fun _ => rfl, fun _ => Iff.rfl, fun _ => rfl⟩

theorem EquivSt.symm {s t : CoreState} (h : EquivSt s t) : EquivSt t s :=
  ⟨fun p => (h.file p).symm, fun p => (h.dir p).symm, fun u => (h.doc u).symm⟩

theorem EquivSt.trans {s t r : CoreState} (h1 : EquivSt s t) (h2 : EquivSt t r) :
    EquivSt s r :=
  ⟨fun p => (h1.file p).trans (h2.file p), fun p => (h1.dir p).trans (h2.dir p),
   fun u => (h1.doc u).trans (h2.doc u)⟩

/-! ## Executing Recovery Actions -/

theorem runAll_append (a b : List Recover) (s : CoreState) :
    runAll (a ++ b) s = runAll b (runAll a s) := by
  simp [runAll, List.foldl_append]

theorem rollback_nil (s : CoreState) : rollback [] s = s := rfl

theorem rollback_append (a b : List Recover) (s : CoreState) :
    rollback (a ++ b) s = rollback a (rollback b s) := by
  simp [rollback, List.reverse_append, runAll_append]

/-! Pointwise effect of one Recovery Action on each observation. -/

theorem obsFile_run (r : Recover) (s : CoreState) (q : Path) :
    obsFile (r.run s) q =
      match r with
      | .putFile p c => if q = p then c else obsFile s q
      | _ => obsFile s q := by
  match r with
  | .putFile p none => simp [Recover.run, obsFile, alookup_aremove]
  | .putFile p (some c) => simp [Recover.run, obsFile, alookup_aset]
  | .putDir p b => simp [Recover.run, obsFile]
  | .putDoc u none => simp [Recover.run, obsFile]
  | .putDoc u (some d) => simp [Recover.run, obsFile]

theorem mem_insertDir (p q : Path) (l : List Path) :
    q ∈ insertDir p l ↔ q = p ∨ q ∈ l := by
  by_cases h : p ∈ l
  · simp [insertDir, h]
    intro hq; subst hq; exact h
  · simp [insertDir, h, or_comm]

theorem mem_removeDir (p q : Path) (l : List Path) :
    q ∈ removeDir p l ↔ ¬ q = p ∧ q ∈ l := by
  simp [removeDir, List.mem_filter, and_comm]

theorem obsDir_run (r : Recover) (s : CoreState) (q : Path) :
    obsDir (r.run s) q ↔
      match r with
      | .putDir p b => if q = p then b = true else obsDir s q
      | _ => obsDir s q := by
  match r with
  | .putFile p none => simp [Recover.run, obsDir]
  | .putFile p (some c) => simp [Recover.run, obsDir]
  | .putDir p b =>
    by_cases h : q = p
    · subst h
      cases b <;> simp [Recover.run, obsDir, mem_insertDir, mem_removeDir]
    · cases b <;> simp [Recover.run, obsDir, mem_insertDir, mem_removeDir, h]
  | .putDoc u none => simp [Recover.run, obsDir]
  | .putDoc u (some d) => simp [Recover.run, obsDir]

theorem obsDoc_run (r : Recover) (s : CoreState) (q : Uri) :
    obsDoc (r.run s) q =
      match r with
      | .putDoc u d => if q = u then d.map (fun x => (x.version, x.lines)) else obsDoc s q
      | _ => obsDoc s q := by
  match r with
  | .putFile p none => simp [Recover.run, obsDoc]
  | .putFile p (some c) => simp [Recover.run, obsDoc]
  | .putDir p b => simp [Recover.run, obsDoc]
  | .putDoc u none =>
    by_cases h : q = u <;> simp [Recover.run, obsDoc, alookup_aremove, h]
  | .putDoc u (some d) =>
    by_cases h : q = u <;> simp [Recover.run, obsDoc, alookup_aset, h]

/-! ## Snapshots

Each mutating primitive of the Executor appends, for every key it is about
to touch, a Recovery Action restoring that key to its current value. -/

theorem rollback_cons (r : Recover) (l : List Recover) (s : CoreState) :
    rollback (r :: l) s = r.run (rollback l s) := by
  simp [rollback, List.reverse_cons, runAll_append, runAll]

theorem obsFile_rollback_snapFiles (s t : CoreState) (ks : List Path) (q : Path) :
    obsFile (rollback (snapFiles s ks) t) q =
      if q ∈ ks then obsFile s q else obsFile t q := by
  induction ks with
  | nil => simp [snapFiles, rollback_nil]
  | cons k rest ih =>
    rw [show snapFiles s (k :: rest) = .putFile k (obsFile s k) :: snapFiles s rest from rfl,
      rollback_cons]
    rw [obsFile_run]
    by_cases h : q = k
    · subst h; simp
    · simp [h, ih]

theorem obsDir_rollback_snapFiles (s t : CoreState) (ks : List Path) (q : Path) :
    obsDir (rollback (snapFiles s ks) t) q ↔ obsDir t q := by
  induction ks with
  | nil => simp [snapFiles, rollback_nil]
  | cons k rest ih =>
    rw [show snapFiles s (k :: rest) = .putFile k (obsFile s k) :: snapFiles s rest from rfl,
      rollback_cons]
    rw [obsDir_run]
    exact ih

theorem obsDoc_rollback_snapFiles (s t : CoreState) (ks : List Path) (q : Uri) :
    obsDoc (rollback (snapFiles s ks) t) q = obsDoc t q := by
  induction ks with
  | nil => simp [snapFiles, rollback_nil]
  | cons k rest ih =>
    rw [show snapFiles s (k :: rest) = .putFile k (obsFile s k) :: snapFiles s rest from rfl,
      rollback_cons]
    rw [obsDoc_run]
    exact ih

theorem obsDir_rollback_snapDirs (s t : CoreState) (ks : List Path) (q : Path) :
    obsDir (rollback (snapDirs s ks) t) q ↔
      if q ∈ ks then obsDir s q else obsDir t q := by
  induction ks with
  | nil => simp [snapDirs, rollback_nil]
  | cons k rest ih =>
    rw [show snapDirs s (k :: rest) = .putDir k (decide (obsDir s k)) :: snapDirs s rest from rfl,
      rollback_cons]
    rw [obsDir_run]
    by_cases h : q = k
    · subst h; simp
    · simp [h, ih]

theorem obsFile_rollback_snapDirs (s t : CoreState) (ks : List Path) (q : Path) :
    obsFile (rollback (snapDirs s ks) t) q = obsFile t q := by
  induction ks with
  | nil => simp [snapDirs, rollback_nil]
  | cons k rest ih =>
    rw [show snapDirs s (k :: rest) = .putDir k (decide (obsDir s k)) :: snapDirs s rest from rfl,
      rollback_cons]
    rw [obsFile_run]
    exact ih

theorem obsDoc_rollback_snapDirs (s t : CoreState) (ks : List Path) (q : Uri) :
    obsDoc (rollback (snapDirs s ks) t) q = obsDoc t q := by
  induction ks with
  | nil => simp [snapDirs, rollback_nil]
  | cons k rest ih =>
    rw [show snapDirs s (k :: rest) = .putDir k (decide (obsDir s k)) :: snapDirs s rest from rfl,
      rollback_cons]
    rw [obsDoc_run]
    exact ih

theorem obsDoc_rollback_snapDocs (s t : CoreState) (us : List Uri) (q : Uri) :
    obsDoc (rollback (snapDocs s us) t) q =
      if q ∈ us then obsDoc s q else obsDoc t q := by
  induction us with
  | nil => simp [snapDocs, rollback_nil]
  | cons k rest ih =>
    rw [show snapDocs s (k :: rest) = .putDoc k (alookup k s.docs) :: snapDocs s rest from rfl,
      rollback_cons]
    rw [obsDoc_run]
    by_cases h : q = k
    · subst h; simp [obsDoc]
    · simp [h, ih]

theorem obsFile_rollback_snapDocs (s t : CoreState) (us : List Uri) (q : Path) :
    obsFile (rollback (snapDocs s us) t) q = obsFile t q := by
  induction us with
  | nil => simp [snapDocs, rollback_nil]
  | cons k rest ih =>
    rw [show snapDocs s (k :: rest) = .putDoc k (alookup k s.docs) :: snapDocs s rest from rfl,
      rollback_cons]
    rw [obsFile_run]
    exact ih

theorem obsDir_rollback_snapDocs (s t : CoreState) (us : List Uri) (q : Path) :
    obsDir (rollback (snapDocs s us) t) q ↔ obsDir t q := by
  induction us with
  | nil => simp [snapDocs, rollback_nil]
  | cons k rest ih =>
    rw [show snapDocs s (k :: rest) = .putDoc k (alookup k s.docs) :: snapDocs s rest from rfl,
      rollback_cons]
    rw [obsDir_run]
    exact ih

/-! Running Recovery Actions is a congruence for observational equality:
each action is a constant write, so its effect depends only on the
observations of the state it runs on. -/

theorem EquivSt.run {s t : CoreState} (r : Recover) (h : EquivSt s t) :
    EquivSt (r.run s) (r.run t) := by
  refine ⟨fun p => ?_, fun p => ?_, fun u => ?_⟩
  · rw [obsFile_run, obsFile_run]
    match r with
    | .putFile k c => by_cases hp : p = k <;> simp [hp, h.file]
    | .putDir k b => simp [h.file]
    | .putDoc k d => simp [h.file]
  · rw [obsDir_run, obsDir_run]
    match r with
    | .putFile k c => exact h.dir p
    | .putDir k b => by_cases hp : p = k <;> simp [hp, h.dir p]
    | .putDoc k d => exact h.dir p
  · rw [obsDoc_run, obsDoc_run]
    match r with
    | .putFile k c => exact h.doc u
    | .putDir k b => exact h.doc u
    | .putDoc k d => by_cases hu : u = k <;> simp [hu, h.doc]

theorem EquivSt.runAll {s t : CoreState} (l : List Recover) (h : EquivSt s t) :
    EquivSt (Coc.runAll l s) (Coc.runAll l t) := by
  induction l generalizing s t with
  | nil => exact h
  | cons r rest ih => exact ih (h.run r)

theorem EquivSt.rollback {s t : CoreState} (l : List Recover) (h : EquivSt s t) :
    EquivSt (Coc.rollback l s) (Coc.rollback l t) :=
  h.runAll l.reverse

/-! ## Text edits (spec.md §3, TextEdit)

Content is a list of lines; an edit replaces the half-open range
`[start, end_)` with `newText`, whose newlines introduce new lines.
Edits of one batch are given against the original content and are applied
as one combined patch, here realised by applying them last-to-first. -/

theorem openDoc_files (u : Uri) (s : CoreState) : (openDoc u s).files = s.files := by
  unfold openDoc; cases alookup u s.docs <;> rfl

theorem openDoc_dirs (u : Uri) (s : CoreState) : (openDoc u s).dirs = s.dirs := by
  unfold openDoc; cases alookup u s.docs <;> rfl

theorem openDoc_of_open (u : Uri) (s : CoreState) (h : (alookup u s.docs).isSome) :
    openDoc u s = s := by
  unfold openDoc
  cases hh : alookup u s.docs
  · rw [hh] at h; simp at h
  · rfl

theorem openDoc_docs_of_new (u : Uri) (s : CoreState) (h : alookup u s.docs = none) :
    (openDoc u s).docs = aset u ⟨s.nextBufnr, 0, loadLines u s⟩ s.docs := by
  unfold openDoc; rw [h]

/-! ## Per-operation rollback correctness

Each Executor operation that succeeds can be undone exactly by executing
the Recovery Actions it appended, in reverse order. -/

theorem createFile_rollback (p : Path) (o : FileOpts) (s s' : CoreState)
    (recs : List Recover) (h : createFile p o s = .ok (s', recs)) :
    EquivSt s (rollback recs s') := by
  rw [createFile] at h
  split at h
  · exact absurd h (by simp)
  split at h
  · simp only [Except.ok.injEq, Prod.mk.injEq] at h
    obtain ⟨hs, hr⟩ := h
    subst hs; subst hr
    exact EquivSt.refl s
  · simp only [Except.ok.injEq, Prod.mk.injEq] at h
    obtain ⟨hs, hr⟩ := h
    subst hs; subst hr
    by_cases hdn : (alookup (Uri.file p) s.docs).isNone = true
    · rw [if_pos hdn, if_pos hdn, rollback_append, rollback_append]
      have hnone : alookup (Uri.file p)
          ({ s with dirs := newDirsOf s p ++ s.dirs,
                    files := aset p "" s.files } : CoreState).docs = none := by
        simpa [Option.isNone_iff_eq_none] using hdn
      refine ⟨fun q => ?_, fun q => ?_, fun q => ?_⟩
      · rw [obsFile_rollback_snapDirs, obsFile_rollback_snapFiles, obsFile_rollback_snapDocs]
        by_cases hq : q = p
        · simp [hq]
        · simp only [List.mem_singleton, hq, if_false]
          simp [obsFile, openDoc_files, alookup_aset, hq]
      · rw [obsDir_rollback_snapDirs]
        by_cases hq : q ∈ newDirsOf s p
        · rw [if_pos hq]
        · rw [if_neg hq, obsDir_rollback_snapFiles, obsDir_rollback_snapDocs]
          simp only [obsDir, openDoc_dirs, List.mem_append]
          exact ⟨fun hh => Or.inr hh, fun hh => hh.resolve_left hq⟩
      · rw [obsDoc_rollback_snapDirs, obsDoc_rollback_snapFiles, obsDoc_rollback_snapDocs]
        by_cases hq : q = Uri.file p
        · simp [hq]
        · rw [if_neg (by simpa using hq)]
          simp [obsDoc, openDoc_docs_of_new _ _ hnone, alookup_aset, hq]
    · rw [if_neg hdn, if_neg hdn, rollback_append, rollback_append, rollback_nil]
      refine ⟨fun q => ?_, fun q => ?_, fun q => ?_⟩
      · rw [obsFile_rollback_snapDirs, obsFile_rollback_snapFiles]
        by_cases hq : q = p
        · simp [hq]
        · simp only [List.mem_singleton, hq, if_false]
          simp [obsFile, alookup_aset, hq]
      · rw [obsDir_rollback_snapDirs]
        by_cases hq : q ∈ newDirsOf s p
        · rw [if_pos hq]
        · rw [if_neg hq, obsDir_rollback_snapFiles]
          simp only [obsDir, List.mem_append]
          exact ⟨fun hh => Or.inr hh, fun hh => hh.resolve_left hq⟩
      · rw [obsDoc_rollback_snapDirs, obsDoc_rollback_snapFiles]
        simp [obsDoc]

theorem deleteFile_rollback (p : Path) (o : FileOpts) (s s' : CoreState)
    (recs : List Recover) (h : deleteFile p o s = .ok (s', recs)) :
    EquivSt s (rollback recs s') := by
  rw [deleteFile] at h
  split at h
  · split at h
    · simp only [Except.ok.injEq, Prod.mk.injEq] at h
      obtain ⟨hs, hr⟩ := h; subst hs; subst hr
      exact EquivSt.refl s
    · exact absurd h (by simp)
  split at h
  · split at h
    · -- recursive directory delete
      simp only [Except.ok.injEq, Prod.mk.injEq] at h
      obtain ⟨hs, hr⟩ := h; subst hs; subst hr
      rw [rollback_append, rollback_append]
      refine ⟨fun q => ?_, fun q => ?_, fun q => ?_⟩
      · rw [obsFile_rollback_snapFiles, obsFile_rollback_snapDirs, obsFile_rollback_snapDocs]
        by_cases hq : q ∈ filesUnder s p
        · rw [if_pos hq]
        · rw [if_neg hq]
          show obsFile s q = alookup q (s.files.filter fun e => !p.isPrefixOf e.1)
          rw [alookup_filter_key (fun k => !p.isPrefixOf k) q s.files]
          rcases hpfx : p.isPrefixOf q with _ | _
          · simp [obsFile, hpfx]
          · simp only [hpfx, Bool.not_true, if_false]
            have hnk : q ∉ s.files.map Prod.fst := by
              intro hmem
              exact hq (List.mem_filter.mpr ⟨hmem, hpfx⟩)
            simp [obsFile, alookup_eq_none_of_not_mem_keys q s.files hnk]
      · rw [obsDir_rollback_snapFiles, obsDir_rollback_snapDirs, obsDir_rollback_snapDocs]
        by_cases hq : q ∈ dirsUnder s p
        · rw [if_pos hq]
        · rw [if_neg hq]
          show obsDir s q ↔ q ∈ s.dirs.filter fun d => !p.isPrefixOf d
          simp only [obsDir, List.mem_filter]
          rcases hpfx : p.isPrefixOf q with _ | _
          · simp [hpfx]
          · constructor
            · intro hmem
              exact absurd (List.mem_filter.mpr ⟨hmem, hpfx⟩ :
                q ∈ s.dirs.filter fun d => p.isPrefixOf d) hq
            · rintro ⟨hmem, hfalse⟩
              simp at hfalse
      · rw [obsDoc_rollback_snapFiles, obsDoc_rollback_snapDirs, obsDoc_rollback_snapDocs]
        by_cases hq : q ∈ docsUnder s p
        · rw [if_pos hq]
        · rw [if_neg hq]
          show obsDoc s q = ((alookup q (s.docs.filter fun e =>
            !(e.1.scheme == "file" && p.isPrefixOf e.1.path))).map fun d => (d.version, d.lines))
          rw [alookup_filter_key (fun u : Uri => !(u.scheme == "file" && p.isPrefixOf u.path))
            q s.docs]
          rcases hpred : (q.scheme == "file" && p.isPrefixOf q.path) with _ | _
          · simp [obsDoc, hpred]
          · simp only [hpred, Bool.not_true, if_false]
            have hnk : q ∉ s.docs.map Prod.fst := by
              intro hmem
              exact hq (List.mem_filter.mpr ⟨hmem, hpred⟩)
            simp [obsDoc, alookup_eq_none_of_not_mem_keys q s.docs hnk]
    · split at h
      · exact absurd h (by simp)
      · -- empty directory delete
        simp only [Except.ok.injEq, Prod.mk.injEq] at h
        obtain ⟨hs, hr⟩ := h; subst hs; subst hr
        refine ⟨fun q => ?_, fun q => ?_, fun q => ?_⟩
        · rw [obsFile_rollback_snapDirs]
          rfl
        · rw [obsDir_rollback_snapDirs]
          by_cases hq : q = p
          · simp [hq]
          · rw [if_neg (by simpa using hq)]
            show obsDir s q ↔ q ∈ s.dirs.filter fun d => !(d == p)
            simp only [obsDir, List.mem_filter]
            simp [hq]
        · rw [obsDoc_rollback_snapDirs]
          rfl
  · -- plain file delete
    simp only [Except.ok.injEq, Prod.mk.injEq] at h
    obtain ⟨hs, hr⟩ := h; subst hs; subst hr
    rw [rollback_append]
    refine ⟨fun q => ?_, fun q => ?_, fun q => ?_⟩
    · rw [obsFile_rollback_snapFiles]
      by_cases hq : q = p
      · simp [hq]
      · rw [if_neg (by simpa using hq)]
        by_cases hdo : (alookup (Uri.file p) s.docs).isSome = true
        · rw [if_pos hdo, obsFile_rollback_snapDocs]
          show obsFile s q = alookup q (aremove p s.files)
          rw [alookup_aremove]
          simp [obsFile, hq]
        · rw [if_neg hdo, rollback_nil]
          show obsFile s q = alookup q (aremove p s.files)
          rw [alookup_aremove]
          simp [obsFile, hq]
    · rw [obsDir_rollback_snapFiles]
      by_cases hdo : (alookup (Uri.file p) s.docs).isSome = true
      · rw [if_pos hdo, obsDir_rollback_snapDocs]
        rfl
      · rw [if_neg hdo, rollback_nil]
        rfl
    · rw [obsDoc_rollback_snapFiles]
      by_cases hdo : (alookup (Uri.file p) s.docs).isSome = true
      · rw [if_pos hdo, obsDoc_rollback_snapDocs]
        by_cases hq : q = Uri.file p
        · simp [hq]
        · rw [if_neg (by simpa using hq)]
          show obsDoc s q = ((alookup q (aremove (Uri.file p) s.docs)).map
            fun d => (d.version, d.lines))
          rw [alookup_aremove]
          simp [obsDoc, hq]
      · rw [if_neg hdo, rollback_nil]
        by_cases hq : q = Uri.file p
        · rw [hq]
          show obsDoc s (Uri.file p) = ((alookup (Uri.file p)
            (aremove (Uri.file p) s.docs)).map fun d => (d.version, d.lines))
          rw [alookup_aremove]
          rcases hres : alookup (Uri.file p) s.docs with _ | d
          · simp [obsDoc, hres]
          · rw [hres] at hdo
            simp at hdo
        · show obsDoc s q = ((alookup q (aremove (Uri.file p) s.docs)).map
            fun d => (d.version, d.lines))
          rw [alookup_aremove]
          simp [obsDoc, hq]

theorem renameFile_rollback (op np : Path) (o : FileOpts) (s s' : CoreState)
    (recs : List Recover) (h : renameFile op np o s = .ok (s', recs)) :
    EquivSt s (rollback recs s') := by
  rw [renameFile] at h
  split at h
  · exact absurd h (by simp)
  split at h
  · -- directory rename
    split at h
    · exact absurd h (by simp)
    split at h
    · exact absurd h (by simp)
    simp only [Except.ok.injEq, Prod.mk.injEq] at h
    obtain ⟨hs, hr⟩ := h; subst hs; subst hr
    rw [rollback_append, rollback_append]
    refine ⟨fun q => ?_, fun q => ?_, fun q => ?_⟩
    · rw [obsFile_rollback_snapFiles, obsFile_rollback_snapDirs, obsFile_rollback_snapDocs]
      by_cases hq : q ∈ filesUnder s op ++ (filesUnder s op).map (remapPath op np) ++
        filesUnder s np
      · rw [if_pos hq]
      · rw [if_neg hq]
        simp only [List.mem_append, not_or] at hq
        obtain ⟨⟨hq1, hq2⟩, hq3⟩ := hq
        show obsFile s q = alookup q
          ((s.files.filter fun e => !op.isPrefixOf e.1 && !np.isPrefixOf e.1) ++
            ((s.files.filter fun e => op.isPrefixOf e.1).map fun e =>
              (remapPath op np e.1, e.2)))
        rw [alookup_append,
          alookup_filter_key (fun k => !op.isPrefixOf k && !np.isPrefixOf k) q s.files,
          alookup_image_none (remapPath op np) (fun k => op.isPrefixOf k) s.files q hq2]
        rcases hop : op.isPrefixOf q with _ | _
        · rcases hnp : np.isPrefixOf q with _ | _
          · simp only [hop, hnp, Bool.not_false, Bool.and_self, if_true]
            cases halq : alookup q s.files <;> simp [obsFile, halq]
          · have hnk : q ∉ s.files.map Prod.fst := by
              intro hmem
              exact hq3 (List.mem_filter.mpr ⟨hmem, hnp⟩)
            simp [obsFile, hop, hnp, alookup_eq_none_of_not_mem_keys q s.files hnk]
        · have hnk : q ∉ s.files.map Prod.fst := by
            intro hmem
            exact hq1 (List.mem_filter.mpr ⟨hmem, hop⟩)
          simp [obsFile, hop, alookup_eq_none_of_not_mem_keys q s.files hnk]
    · rw [obsDir_rollback_snapFiles, obsDir_rollback_snapDirs, obsDir_rollback_snapDocs]
      by_cases hq : q ∈ dirsUnder s op ++ (dirsUnder s op).map (remapPath op np) ++
        dirsUnder s np
      · rw [if_pos hq]
      · rw [if_neg hq]
        simp only [List.mem_append, not_or] at hq
        obtain ⟨⟨hq1, hq2⟩, hq3⟩ := hq
        show obsDir s q ↔ q ∈
          ((s.dirs.filter fun d => !op.isPrefixOf d && !np.isPrefixOf d) ++
            ((s.dirs.filter fun d => op.isPrefixOf d).map (remapPath op np)))
        simp only [obsDir, List.mem_append, List.mem_filter]
        constructor
        · intro hmem
          refine Or.inl ⟨hmem, ?_⟩
          rcases hop : op.isPrefixOf q with _ | _
          · rcases hnp : np.isPrefixOf q with _ | _
            · simp
            · exact absurd (List.mem_filter.mpr ⟨hmem, hnp⟩ :
                q ∈ s.dirs.filter fun d => np.isPrefixOf d) hq3
          · exact absurd (List.mem_filter.mpr ⟨hmem, hop⟩ :
              q ∈ s.dirs.filter fun d => op.isPrefixOf d) hq1
        · rintro (⟨hmem, _⟩ | hmem)
          · exact hmem
          · exact absurd hmem hq2
    · rw [obsDoc_rollback_snapFiles, obsDoc_rollback_snapDirs, obsDoc_rollback_snapDocs]
      by_cases hq : q ∈ docsUnder s op ++ (docsUnder s op).map
          (fun u => ⟨u.scheme, remapPath op np u.path⟩) ++ docsUnder s np
      · rw [if_pos hq]
      · rw [if_neg hq]
        simp only [List.mem_append, not_or] at hq
        obtain ⟨⟨hq1, hq2⟩, hq3⟩ := hq
        show obsDoc s q = (alookup q
          ((s.docs.filter fun e =>
              !(e.1.scheme == "file" && (op.isPrefixOf e.1.path || np.isPrefixOf e.1.path))) ++
            ((s.docs.filter fun e => e.1.scheme == "file" && op.isPrefixOf e.1.path).map
              fun e => (⟨e.1.scheme, remapPath op np e.1.path⟩, e.2)))).map
          fun d => (d.version, d.lines)
        rw [alookup_append,
          alookup_filter_key (fun u : Uri =>
            !(u.scheme == "file" && (op.isPrefixOf u.path || np.isPrefixOf u.path))) q s.docs,
          alookup_image_none (fun u : Uri => ⟨u.scheme, remapPath op np u.path⟩)
            (fun u : Uri => u.scheme == "file" && op.isPrefixOf u.path) s.docs q hq2]
        rcases hpred : (q.scheme == "file" && (op.isPrefixOf q.path || np.isPrefixOf q.path))
          with _ | _
        · simp only [hpred, Bool.not_false, if_true]
          cases halq : alookup q s.docs <;> simp [obsDoc, halq]
        · have hnk : q ∉ s.docs.map Prod.fst := by
            intro hmem
            rcases Bool.and_eq_true_iff.mp hpred with ⟨hsch, hpfx⟩
            rcases Bool.or_eq_true_iff.mp hpfx with hop | hnp
            · exact hq1 (List.mem_filter.mpr ⟨hmem, by simp [hsch, hop]⟩)
            · exact hq3 (List.mem_filter.mpr ⟨hmem, by simp [hsch, hnp]⟩)
          simp [obsDoc, hpred, alookup_eq_none_of_not_mem_keys q s.docs hnk]
  · -- file rename
    simp only [] at h
    split at h
    · -- a document is open at the source
      simp only [Except.ok.injEq, Prod.mk.injEq] at h
      obtain ⟨hs, hr⟩ := h; subst hs; subst hr
      rw [rollback_append]
      refine ⟨fun q => ?_, fun q => ?_, fun q => ?_⟩
      · rw [obsFile_rollback_snapFiles]
        by_cases hq : q ∈ ([op, np] : List Path)
        · rw [if_pos hq]
        · rw [if_neg hq]
          simp only [List.mem_cons, List.mem_singleton, not_or] at hq
          obtain ⟨hq1, hq2⟩ := hq
          rw [obsFile_rollback_snapDocs]
          show obsFile s q = alookup q (aset np _ (aremove op s.files))
          rw [alookup_aset, alookup_aremove]
          simp [obsFile, hq1, hq2]
      · rw [obsDir_rollback_snapFiles, obsDir_rollback_snapDocs]
        exact Iff.rfl
      · rw [obsDoc_rollback_snapFiles, obsDoc_rollback_snapDocs]
        by_cases hq : q ∈ ([Uri.file op, Uri.file np] : List Uri)
        · rw [if_pos hq]
        · rw [if_neg hq]
          simp only [List.mem_cons, List.mem_singleton, not_or] at hq
          obtain ⟨hq1, hq2⟩ := hq
          show obsDoc s q = (alookup q (aset (Uri.file np) _
            (aremove (Uri.file op) (aremove (Uri.file np) s.docs)))).map
            fun d => (d.version, d.lines)
          rw [alookup_aset, alookup_aremove, alookup_aremove]
          simp [obsDoc, hq1, hq2]
    · -- no document at the source
      split at h
      · exact absurd h (by simp)
      · simp only [Except.ok.injEq, Prod.mk.injEq] at h
        obtain ⟨hs, hr⟩ := h; subst hs; subst hr
        refine ⟨fun q => ?_, fun q => ?_, fun q => ?_⟩
        · rw [obsFile_rollback_snapFiles]
          by_cases hq : q ∈ ([op, np] : List Path)
          · rw [if_pos hq]
          · rw [if_neg hq]
            simp only [List.mem_cons, List.mem_singleton, not_or] at hq
            obtain ⟨hq1, hq2⟩ := hq
            show obsFile s q = alookup q (aset np _ (aremove op s.files))
            rw [alookup_aset, alookup_aremove]
            simp [obsFile, hq1, hq2]
        · rw [obsDir_rollback_snapFiles]
          exact Iff.rfl
        · rw [obsDoc_rollback_snapFiles]
          rfl

theorem docEdit_load_rollback (u : Uri) (s : CoreState) :
    EquivSt s (rollback (if (alookup u s.docs).isSome = true then []
      else snapDocs s [u]) (openDoc u s)) := by
  by_cases hw : (alookup u s.docs).isSome = true
  · rw [if_pos hw, rollback_nil, openDoc_of_open u s hw]
    exact EquivSt.refl s
  · rw [if_neg hw]
    have hnone : alookup u s.docs = none := by
      cases hx : alookup u s.docs
      · rfl
      · rw [hx] at hw; simp at hw
    refine ⟨fun q => ?_, fun q => ?_, fun q => ?_⟩
    · rw [obsFile_rollback_snapDocs]
      simp [obsFile, openDoc_files]
    · rw [obsDir_rollback_snapDocs]
      simp [obsDir, openDoc_dirs]
    · rw [obsDoc_rollback_snapDocs]
      by_cases hq : q = u
      · simp [hq]
      · rw [if_neg (by simpa using hq)]
        simp [obsDoc, openDoc_docs_of_new u s hnone, alookup_aset, hq]

theorem docEdit_apply_rollback (u : Uri) (d' : Doc) (t : CoreState) :
    EquivSt t (rollback (snapDocs t [u]) { t with docs := aset u d' t.docs }) := by
  refine ⟨fun q => ?_, fun q => ?_, fun q => ?_⟩
  · rw [obsFile_rollback_snapDocs]
    rfl
  · rw [obsDir_rollback_snapDocs]
    exact Iff.rfl
  · rw [obsDoc_rollback_snapDocs]
    by_cases hq : q = u
    · simp [hq]
    · rw [if_neg (by simpa using hq)]
      simp [obsDoc, alookup_aset, hq]

theorem applyStep_rollback (s s' : CoreState) (c : Change) (recs : List Recover)
    (h : applyStep s c = .ok (s', recs)) : EquivSt s (rollback recs s') := by
  match c with
  | .create u o => exact createFile_rollback u.path o s s' recs h
  | .delete u o => exact deleteFile_rollback u.path o s s' recs h
  | .rename u v o => exact renameFile_rollback u.path v.path o s s' recs h
  | .docEdit u ver edits =>
    rw [applyStep] at h
    split at h
    · exact absurd h (by simp)
    rename_i d hd
    have key : ∀ dd : Doc,
        EquivSt s (rollback ((if (alookup u s.docs).isSome = true then []
          else snapDocs s [u]) ++ snapDocs (openDoc u s) [u])
          { openDoc u s with docs := aset u dd (openDoc u s).docs }) := by
      intro dd
      rw [rollback_append]
      exact (docEdit_load_rollback u s).trans
        ((docEdit_apply_rollback u dd (openDoc u s)).rollback _)
    split at h
    · split at h
      · simp only [Except.ok.injEq, Prod.mk.injEq] at h
        obtain ⟨hs, hr⟩ := h; subst hs; subst hr
        exact key _
      · exact absurd h (by simp)
    · simp only [Except.ok.injEq, Prod.mk.injEq] at h
      obtain ⟨hs, hr⟩ := h; subst hs; subst hr
      exact key _

theorem go_rollback (plan : List Change) (s t : CoreState) (acc R : List Recover)
    (h : go s plan acc = .error (t, R)) :
    EquivSt (rollback acc s) (rollback R t) := by
  induction plan generalizing s acc with
  | nil => rw [go] at h; exact absurd h (by simp)
  | cons c rest ih =>
    rw [go] at h
    split at h
    · simp only [Except.error.injEq, Prod.mk.injEq] at h
      obtain ⟨hs, hr⟩ := h; subst hs; subst hr
      exact EquivSt.refl _
    · rename_i s₁ recs₁ heq
      have step := applyStep_rollback s s₁ c recs₁ heq
      have tail := ih s₁ (acc ++ recs₁) h
      rw [rollback_append] at tail
      exact (step.rollback acc).trans tail

theorem applyEdit_false_restores (we : WorkspaceEdit) (s : CoreState) (b : Bool)
    (s' : CoreState) (h : applyEdit we s = (b, s')) (hb : b = false) : EquivSt s s' := by
  subst hb
  rw [applyEdit] at h
  split at h
  · simp only [Prod.mk.injEq] at h
    obtain ⟨_, hs⟩ := h; subst hs
    exact EquivSt.refl s
  · split at h
    · simp only [Prod.mk.injEq] at h
      exact absurd h.1 (by simp)
    · rename_i t rr heq
      simp only [Prod.mk.injEq] at h
      obtain ⟨_, hs⟩ := h; subst hs
      have hmain := go_rollback (planOf we) s t [] rr heq
      rw [rollback_nil] at hmain
      exact hmain

/-! ## Evaluation of the success path -/

theorem applyStep_docEdit_mismatch (u : Uri) (s : CoreState) (d : Doc) (w : Nat)
    (edits : List TextEdit) (hdoc : alookup u s.docs = some d) (hw : ¬ w = d.version) :
    applyStep s (.docEdit u (some w) edits) = .error (.conflict u) := by
  have hopen : openDoc u s = s := openDoc_of_open u s (by simp [hdoc])
  rw [applyStep]
  simp [hopen, hdoc, hw]

theorem applyStep_docEdit_ok (u : Uri) (s : CoreState) (d : Doc) (ver : Option Nat)
    (edits : List TextEdit) (hdoc : alookup u s.docs = some d)
    (hver : ver = none ∨ ver = some d.version) :
    applyStep s (.docEdit u ver edits) =
      .ok ({ s with docs := aset u ⟨d.bufnr, d.version + 1, applyTextEdits edits d.lines⟩ s.docs },
        snapDocs s [u]) := by
  have hopen : openDoc u s = s := openDoc_of_open u s (by simp [hdoc])
  rcases hver with hv | hv <;> subst hv <;>
    · rw [applyStep]
      simp [hopen, hdoc]

theorem adjustCursor_docs (we : WorkspaceEdit) (s₀ t : CoreState) :
    (adjustCursor we s₀ t).docs = t.docs := by
  cases hf : s₀.focused with
  | none => simp [adjustCursor, hf]
  | some fu =>
    simp only [adjustCursor, hf]
    split <;> rfl

theorem adjustCursor_files (we : WorkspaceEdit) (s₀ t : CoreState) :
    (adjustCursor we s₀ t).files = t.files := by
  cases hf : s₀.focused with
  | none => simp [adjustCursor, hf]
  | some fu =>
    simp only [adjustCursor, hf]
    split <;> rfl

theorem adjustCursor_cursor_focused (we : WorkspaceEdit) (s₀ t : CoreState) (fu : Uri)
    (hf : s₀.focused = some fu) (hmem : fu ∈ editedUris (planOf we)) :
    (adjustCursor we s₀ t).cursor =
      shiftPos s₀.cursor (getChangedFromEdits s₀.cursor (editsFor fu (planOf we))) := by
  simp only [adjustCursor, hf]
  rw [if_pos hmem]

/-! ## Properties of the File Search walk -/

theorem findWalk_cancel_truncates (incl excl : Path → Bool) (maxR : Option Nat) (k : Nat)
    (l : List Path) (polls found : Nat) :
    findWalk incl excl maxR (some k) l polls found <+:
      findWalk incl excl maxR none l polls found := by
  induction l generalizing polls found with
  | nil => simp [findWalk]
  | cons e rest ih =>
    rw [findWalk, findWalk]
    have hn : isCancelled none polls = false := rfl
    rw [hn]
    by_cases hc : isCancelled (some k) polls = true
    · rw [if_pos hc]
      simp only [Bool.false_eq_true, if_false]
      exact List.nil_prefix
    · rw [if_neg hc]
      simp only [Bool.false_eq_true, if_false]
      by_cases hm : atMax maxR found = true
      · rw [if_pos hm, if_pos hm]
      · rw [if_neg hm, if_neg hm]
        by_cases hmt : (incl e && !excl e) = true
        · rw [if_pos hmt, if_pos hmt]
          exact List.cons_prefix_cons.mpr ⟨rfl, ih _ _⟩
        · rw [if_neg hmt, if_neg hmt]
          exact ih _ _

theorem findWalk_cancelled_now (incl excl : Path → Bool) (maxR : Option Nat)
    (l : List Path) (found : Nat) :
    findWalk incl excl maxR (some 0) l 0 found = [] := by
  cases l <;> simp [findWalk, isCancelled]

theorem findWalk_maxResults (incl excl : Path → Bool) (n : Nat) (l : List Path)
    (polls found : Nat) (hf : found ≤ n) :
    (findWalk incl excl (some n) none l polls found).length =
      min (n - found) (l.filter fun e => incl e && !excl e).length := by
  induction l generalizing polls found with
  | nil => simp [findWalk]
  | cons e rest ih =>
    rw [findWalk]
    have hn : isCancelled none polls = false := rfl
    rw [hn]
    simp only [Bool.false_eq_true, if_false]
    by_cases hm : atMax (some n) found = true
    · rw [if_pos hm]
      have hnf : n = found := by
        simp only [atMax, decide_eq_true_eq] at hm
        omega
      simp [hnf]
    · rw [if_neg hm]
      have hlt : found < n := by
        simp only [atMax, decide_eq_true_eq] at hm
        omega
      by_cases hmt : (incl e && !excl e) = true
      · rw [if_pos hmt]
        rw [List.length_cons, ih (polls + 1) (found + 1) hlt]
        have : (List.filter (fun e => incl e && !excl e) (e :: rest)).length =
            (List.filter (fun e => incl e && !excl e) rest).length + 1 := by
          simp [List.filter, hmt]
        rw [this]
        omega
      · rw [if_neg hmt]
        rw [ih (polls + 1) found hf]
        have : (List.filter (fun e => incl e && !excl e) (e :: rest)).length =
            (List.filter (fun e => incl e && !excl e) rest).length := by
          simp [List.filter, hmt]
        rw [this]

/-! ## Claim theorems -/

/-- C1: for every WorkspaceEdit in which some step fails, `applyEdit`
returns `false`, and after the accumulated Recovery Actions have been
executed in reverse order (which `applyEdit` does before returning), the
filesystem and the Document Store are observably identical to their state
before the call. -/
theorem applyEdit_failure_atomic (we : WorkspaceEdit) (s : CoreState)
    (h : (applyEdit we s).1 = false) : EquivSt s (applyEdit we s).2 :=
  applyEdit_false_restores we s (applyEdit we s).1 (applyEdit we s).2 rfl h

/-- Witness for C1: a version-mismatch edit on a concrete state fails and
leaves the world observably unchanged. -/
theorem applyEdit_failure_atomic_witness :
    (applyEdit mismatchWe sampleState).1 = false ∧
      EquivSt sampleState (applyEdit mismatchWe sampleState).2 :=
  ⟨by decide, applyEdit_failure_atomic mismatchWe sampleState (by decide)⟩

/-- C2: for a document open at version V, a DocumentEdit with any expected
version different from V leaves the state unchanged and `applyEdit`
returns `false`; with expected version V or null it returns `true` and
applies the edit (bumping the version). -/
theorem applyEdit_version_gate (s : CoreState) (u : Uri) (d : Doc) (edits : List TextEdit)
    (hdoc : alookup u s.docs = some d) :
    (∀ w, ¬ w = d.version →
      applyEdit ⟨[], [.docEdit u (some w) edits]⟩ s = (false, s)) ∧
    (∀ ver, ver = none ∨ ver = some d.version →
      (applyEdit ⟨[], [.docEdit u ver edits]⟩ s).1 = true ∧
      alookup u (applyEdit ⟨[], [.docEdit u ver edits]⟩ s).2.docs =
        some ⟨d.bufnr, d.version + 1, applyTextEdits edits d.lines⟩) := by
  constructor
  · intro w hw
    have hstep := applyStep_docEdit_mismatch u s d w edits hdoc hw
    have hplan : planOf ⟨[], [.docEdit u (some w) edits]⟩ = [.docEdit u (some w) edits] := by
      simp [planOf]
    rw [applyEdit, if_neg (by simp [planOf, badScheme]), hplan]
    simp [go, hstep, rollback_nil]
  · intro ver hver
    have hstep := applyStep_docEdit_ok u s d ver edits hdoc hver
    have hplan : planOf ⟨[], [.docEdit u ver edits]⟩ = [.docEdit u ver edits] := by
      simp [planOf]
    constructor
    · rw [applyEdit, if_neg (by simp [planOf, badScheme]), hplan]
      simp [go, hstep]
    · rw [applyEdit, if_neg (by simp [planOf, badScheme]), hplan]
      simp [go, hstep, adjustCursor_docs, alookup_aset]

/-- Witness for C2: on a concrete document at version 5, expected version 6
is refused with no state change, and expected version 5 succeeds. -/
theorem applyEdit_version_gate_witness :
    applyEdit ⟨[], [.docEdit (Uri.file ["tmp", "a.txt"]) (some 6) []]⟩ sampleState
        = (false, sampleState) ∧
    (applyEdit ⟨[], [.docEdit (Uri.file ["tmp", "a.txt"]) (some 5) []]⟩ sampleState).1
        = true := by
  have hdoc : alookup (Uri.file ["tmp", "a.txt"]) sampleState.docs = some sampleDoc := by
    decide
  exact ⟨(applyEdit_version_gate sampleState _ sampleDoc [] hdoc).1 6 (by decide),
    ((applyEdit_version_gate sampleState _ sampleDoc [] hdoc).2 (some 5)
      (Or.inr (by decide))).1⟩

/-- C3: deleting a directory with `recursive := true` and then executing
the Recovery Actions appended by that call in reverse order restores the
directory and every file of its subtree with its exact content: the
delete/recreate round trip is the identity on observable state. -/
theorem deleteFile_recursive_roundtrip (p : Path) (o : FileOpts) (s s' : CoreState)
    (recs : List Recover) (hdir : p ∈ s.dirs) (hrec : o.recursive = true)
    (h : deleteFile p o s = .ok (s', recs)) :
    EquivSt s (rollback recs s') :=
  deleteFile_rollback p o s s' recs h

/-- Witness for C3: deleting the concrete `tmp` tree recursively and
rolling back restores the sample state observably. -/
theorem deleteFile_recursive_roundtrip_witness :
    ∃ s' recs, deleteFile ["tmp"] ⟨false, false, false, true⟩ sampleState = .ok (s', recs) ∧
      EquivSt sampleState (rollback recs s') := by
  rcases hres : deleteFile ["tmp"] ⟨false, false, false, true⟩ sampleState with err | ⟨s₁, recs₁⟩
  · have hok : isOkE (deleteFile ["tmp"] ⟨false, false, false, true⟩ sampleState) = true := by
      decide
    rw [hres] at hok
    exact absurd hok (by simp [isOkE])
  · exact ⟨s₁, recs₁, rfl,
      deleteFile_recursive_roundtrip ["tmp"] _ sampleState s₁ recs₁ (by decide) rfl hres⟩

/-- Counterexample to C4 as stated: a rename whose source neither exists on
disk nor has an open document fails with NotFound (destination free,
overwrite unset), exactly as the test "should throw when oldPath not
exists" demands; the rename does not proceed. -/
theorem renameFile_missing_source_fails :
    renameFile ["foo"] ["bar"] {} emptyState = .error (.notFound ["foo"]) := rfl

/-- C4 (amended): a rename whose source does not exist on disk proceeds
exactly when an open document exists for the source; the document is then
re-pointed at the destination. -/
theorem renameFile_missing_source_with_doc (op np : Path) (o : FileOpts) (s : CoreState)
    (d : Doc) (hfile : alookup op s.files = none) (hdir : op ∉ s.dirs)
    (hdoc : alookup (Uri.file op) s.docs = some d) (hdest : existsAt s np = false) :
    ∃ s' recs, renameFile op np o s = .ok (s', recs) ∧
      alookup (Uri.file np) s'.docs = some d := by
  rw [renameFile]
  rw [if_neg (by simp [hdest])]
  rw [if_neg (by simpa using hdir)]
  simp only [hdoc]
  exact ⟨_, _, rfl, by simp [alookup_aset]⟩

/-- Witness for C4 (amended): renaming an in-memory-only document on a
concrete state succeeds and re-points the document. -/
theorem renameFile_missing_source_with_doc_witness :
    ∃ s' recs, renameFile ["g"] ["h"] {} ghostState = .ok (s', recs) ∧
      alookup (Uri.file ["h"]) s'.docs = some ⟨7, 2, ["x"]⟩ :=
  renameFile_missing_source_with_doc ["g"] ["h"] {} ghostState ⟨7, 2, ["x"]⟩ rfl
    (by decide) rfl rfl

/-- Counterexample to C5 as stated: an insertion whose range lies exactly
at the cursor's original offset does move the cursor forward (the test
"should adjust cursor position after applyEdits" pins this behaviour). -/
theorem applyEdit_insert_at_cursor_moves :
    insertAtCursorEdit.range.start = cursorState.cursor ∧
    insertAtCursorEdit.range.end_ = cursorState.cursor ∧
    (applyEdit cursorWe cursorState).1 = true ∧
    (applyEdit cursorWe cursorState).2.cursor = ⟨1, 0⟩ ∧
    ¬ (applyEdit cursorWe cursorState).2.cursor = cursorState.cursor := by
  refine ⟨rfl, rfl, ?_, ?_, ?_⟩ <;> decide

/-- C5 (amended): after a successful `applyEdit` whose edited documents
include the focused document, the cursor is shifted by the summed net
line/character delta of the focused document's edits, where an edit
contributes zero unless its range ends at or before the cursor's original
position (edits ending strictly after the cursor do not move it). -/
theorem applyEdit_cursor_shift (we : WorkspaceEdit) (s s' : CoreState) (fu : Uri)
    (hf : s.focused = some fu) (hmem : fu ∈ editedUris (planOf we))
    (h : applyEdit we s = (true, s')) :
    s'.cursor = shiftPos s.cursor (getChangedFromEdits s.cursor (editsFor fu (planOf we))) ∧
    ∀ e ∈ editsFor fu (planOf we), posLe e.range.end_ s.cursor = false →
      changedPosition s.cursor e = (0, 0) := by
  constructor
  · rw [applyEdit] at h
    split at h
    · simp at h
    · split at h
      · simp only [Prod.mk.injEq] at h
        obtain ⟨_, hs⟩ := h
        subst hs
        exact adjustCursor_cursor_focused we s _ fu hf hmem
      · simp at h
  · intro e _ hpos
    simp [changedPosition, hpos]

/-- Witness for C5 (amended): the cursor scenario evaluates to the shifted
position predicted by the summed deltas. -/
theorem applyEdit_cursor_shift_witness :
    ∃ s', applyEdit cursorWe cursorState = (true, s') ∧
      s'.cursor = shiftPos cursorState.cursor (getChangedFromEdits cursorState.cursor
        (editsFor (Uri.file ["x"]) (planOf cursorWe))) := by
  rcases hres : applyEdit cursorWe cursorState with ⟨b, t⟩
  have hb : b = true := by
    have h1 : (applyEdit cursorWe cursorState).1 = true := by decide
    rw [hres] at h1
    exact h1
  subst hb
  exact ⟨t, rfl,
    (applyEdit_cursor_shift cursorWe cursorState t (Uri.file ["x"]) rfl (by decide) hres).1⟩

/-- C6: `createFile` fails when the target exists and neither `overwrite`
nor `ignoreIfExists` is set; with `ignoreIfExists` set and the target
existing it is a no-op appending no Recovery Action; hence calling it
twice with `ignoreIfExists` never fails and the second call leaves the
state of the first call intact. -/
theorem createFile_ignoreIfExists_spec (s : CoreState) (p : Path) :
    (∀ o : FileOpts, existsAt s p = true → o.overwrite = false → o.ignoreIfExists = false →
      createFile p o s = .error (.alreadyExists p)) ∧
    (∀ o : FileOpts, existsAt s p = true → o.ignoreIfExists = true →
      createFile p o s = .ok (s, [])) ∧
    (∃ s₁ r₁, createFile p ⟨false, true, false, false⟩ s = .ok (s₁, r₁) ∧
      createFile p ⟨false, true, false, false⟩ s₁ = .ok (s₁, [])) := by
  refine ⟨fun o hex hov hig => ?_, fun o hex hig => ?_, ?_⟩
  · rw [createFile, if_pos ⟨hex, by simp [hov], by simp [hig]⟩]
  · rw [createFile, if_neg (by simp [hig]), if_pos ⟨hex, hig⟩]
  · by_cases hex : existsAt s p = true
    · refine ⟨s, [], ?_, ?_⟩ <;>
        rw [createFile, if_neg (fun hcond => hcond.2.2 rfl), if_pos ⟨hex, rfl⟩]
    · rw [createFile, if_neg (by simp [hex]), if_neg (by simp [hex])]
      refine ⟨_, _, rfl, ?_⟩
      have hfile1 : ∀ t : CoreState, t.files = aset p "" s.files → existsAt t p = true := by
        intro t ht
        rw [existsAt, ht, alookup_aset]
        simp
      by_cases hdn : (alookup (Uri.file p) s.docs).isNone = true
      · rw [if_pos hdn]
        have hex1 := hfile1 _ (openDoc_files (Uri.file p)
          { s with dirs := newDirsOf s p ++ s.dirs, files := aset p "" s.files })
        rw [createFile, if_neg (fun hcond => hcond.2.2 rfl), if_pos ⟨hex1, rfl⟩]
      · rw [if_neg hdn]
        have hex1 := hfile1
          { s with dirs := newDirsOf s p ++ s.dirs, files := aset p "" s.files } rfl
        rw [createFile, if_neg (fun hcond => hcond.2.2 rfl), if_pos ⟨hex1, rfl⟩]

/-- Witness for C6: on the concrete sample state, creating an existing
file without flags fails, with `ignoreIfExists` it is a no-op, and a fresh
path can be created twice with `ignoreIfExists` without failure. -/
theorem createFile_ignoreIfExists_spec_witness :
    createFile ["tmp", "a.txt"] ⟨false, false, false, false⟩ sampleState =
        .error (.alreadyExists ["tmp", "a.txt"]) ∧
    createFile ["tmp", "a.txt"] ⟨false, true, false, false⟩ sampleState =
        .ok (sampleState, []) ∧
    (∃ s₁ r₁, createFile ["fresh"] ⟨false, true, false, false⟩ sampleState = .ok (s₁, r₁) ∧
      createFile ["fresh"] ⟨false, true, false, false⟩ s₁ = .ok (s₁, [])) := by
  obtain ⟨h1, h2, _⟩ := createFile_ignoreIfExists_spec sampleState ["tmp", "a.txt"]
  exact ⟨h1 _ (by decide) rfl rfl, h2 _ (by decide) rfl,
    (createFile_ignoreIfExists_spec sampleState ["fresh"]).2.2⟩

/-- C7: cancelling the token of a `findFiles` call (including immediately,
at poll count 0) never makes the call fail: it returns a truncated result,
always an initial segment of the matches the uncancelled walk returns. -/
theorem findFiles_cancel_truncates (s : CoreState) (roots : List Path)
    (incl excl : Path → Bool) (maxR : Option Nat) (k : Nat) :
    findFiles s roots incl excl maxR (some k) <+: findFiles s roots incl excl maxR none ∧
      findFiles s roots incl excl maxR (some 0) = [] :=
  ⟨findWalk_cancel_truncates incl excl maxR k (candidates s roots) 0 0,
    findWalk_cancelled_now incl excl maxR (candidates s roots) 0⟩

/-- C8: with `maxResults = n`, the walk stops as soon as the bound is
reached: the result length is exactly the minimum of `n` and the number of
matching candidate files, so it is exactly `n` whenever at least `n`
matches exist and never more than `n`. -/
theorem findFiles_maxResults_exact (s : CoreState) (roots : List Path)
    (incl excl : Path → Bool) (n : Nat) :
    (findFiles s roots incl excl (some n) none).length =
      min n ((candidates s roots).filter fun e => incl e && !excl e).length := by
  rw [findFiles, findWalk_maxResults incl excl n (candidates s roots) 0 0 (Nat.zero_le n)]
  simp

/-- C9: a WorkspaceEdit containing a file operation whose URI has a
non-filesystem scheme is rejected before any mutation: `applyEdit` returns
`false` with the state literally unchanged. -/
theorem applyEdit_rejects_bad_scheme (we : WorkspaceEdit) (s : CoreState)
    (h : (planOf we).any badScheme = true) : applyEdit we s = (false, s) := by
  rw [applyEdit, if_pos h]

/-- Witness for C9: a CreateFile through a `term:` URI is rejected with no
state change on the concrete sample state. -/
theorem applyEdit_rejects_bad_scheme_witness :
    applyEdit termWe sampleState = (false, sampleState) :=
  applyEdit_rejects_bad_scheme termWe sampleState (by decide)

/-- C10: renaming a file whose document is open preserves the buffer's
identity and in-memory content: the document found at the destination URI
afterwards is the very document that was open at the source (same buffer
number, same lines including unsaved modifications, same version). -/
theorem renameFile_buffer_identity (op np : Path) (o : FileOpts) (s s' : CoreState)
    (recs : List Recover) (d : Doc) (hdir : op ∉ s.dirs)
    (hdoc : alookup (Uri.file op) s.docs = some d)
    (h : renameFile op np o s = .ok (s', recs)) :
    alookup (Uri.file np) s'.docs = some d := by
  rw [renameFile] at h
  split at h
  · exact absurd h (by simp)
  split at h
  · rename_i hc
    exact absurd (by simpa using hc) hdir
  · simp only [] at h
    split at h
    · rename_i d₂ heq
      rw [hdoc] at heq
      injection heq with hd₂
      simp only [Except.ok.injEq, Prod.mk.injEq] at h
      obtain ⟨hs, _⟩ := h
      subst hs
      rw [alookup_aset]
      simp [hd₂]
    · rename_i heq
      rw [hdoc] at heq
      exact absurd heq (by simp)

/-- Witness for C10: renaming the concretely open `tmp/a.txt` keeps its
document (buffer 3, modified lines) at the new URI. -/
theorem renameFile_buffer_identity_witness :
    ∃ s' recs, renameFile ["tmp", "a.txt"] ["moved.txt"] {} sampleState = .ok (s', recs) ∧
      alookup (Uri.file ["moved.txt"]) s'.docs = some sampleDoc := by
  rcases hres : renameFile ["tmp", "a.txt"] ["moved.txt"] {} sampleState with err | ⟨s₁, recs₁⟩
  · have hok : isOkE (renameFile ["tmp", "a.txt"] ["moved.txt"] {} sampleState) = true := by
      decide
    rw [hres] at hok
    exact absurd hok (by simp [isOkE])
  · exact ⟨s₁, recs₁, rfl,
      renameFile_buffer_identity ["tmp", "a.txt"] ["moved.txt"] _ sampleState s₁ recs₁
        sampleDoc (by decide) (by decide) hres⟩

end Coc

